import Mathlib

/-!
Shallow embedding of `simulator/dv_router.py`, a distance-vector routing
engine for one network node.  Python dictionaries are modelled as ordered
association lists with insertion-order semantics (updating an existing key
keeps its position, a fresh key is appended at the end), matching dict
iteration order.  `api.current_time()` is modelled by threading an explicit
`now : Nat` argument.  Python exceptions (`KeyError`, the `NameError` raised
by reading an unbound local, and `TypeError` from indexing a string with a
string) are modelled with `Except PyErr`.  Calls of
`self.delegate.route_update(host)` are modelled by returning the list of
notified hosts in call order.
-/

namespace DV

/-- Ports are integers; the reserved `INSTANCE` key is `-1`. -/
abbrev Port := Int

/-- Hosts are opaque identifiers. -/
abbrev Host := Nat

/-- The unreachability sentinel: `INFINITY = 16`. -/
def INFINITY : Int := 16

/-- The key of the router's own computed table: `INSTANCE = -1`. -/
def INSTANCE : Port := -1

/-- Python runtime errors that the source can raise. -/
inductive PyErr where
  | keyError
  | nameError
  | typeError
deriving DecidableEq, Repr

/-- The `m_mapping` record: `{kDistance, kNextHop, kTime}`. -/
structure Mapping where
  kDistance : Int
  kNextHop : Port
  kTime : Nat
deriving DecidableEq, Repr

/-- Source `m_mapping(distance, next_hop)`; the time stamp
`api.current_time()` is passed in as `now`. -/
def m_mapping (now : Nat) (distance : Int) (next_hop : Port) : Mapping :=
  ⟨distance, next_hop, now⟩

/-- Dictionary lookup: first binding of the key. -/
def alookup {α β : Type} [DecidableEq α] : List (α × β) → α → Option β
  | [], _ => none
  | (k, v) :: rest, a => if k = a then some v else alookup rest a

/-- Dictionary write `d[k] = v`: update in place if the key exists, else
append at the end (python insertion order). -/
def aset {α β : Type} [DecidableEq α] : List (α × β) → α → β → List (α × β)
  | [], a, b => [(a, b)]
  | (k, v) :: rest, a, b => if k = a then (k, b) :: rest else (k, v) :: aset rest a b

/-- Dictionary key list, in insertion order. -/
def akeys {α β : Type} (l : List (α × β)) : List α := l.map Prod.fst

/-- The `RouteMap` state: `latencies` maps ports to link latencies,
`routes` maps ports (including `INSTANCE`) to host → `Mapping` tables. -/
structure RouteMap where
  latencies : List (Port × Int)
  routes : List (Port × List (Host × Mapping))
deriving DecidableEq, Repr

/-- Source `RouteMap.__init__`: latency 0 for `INSTANCE`, an empty own table. -/
def RouteMap.init : RouteMap :=
  { latencies := [(INSTANCE, 0)], routes := [(INSTANCE, [])] }

/-- Read `self.routes[p][h]` (as an `Option`). -/
def getMapping (rm : RouteMap) (p : Port) (h : Host) : Option Mapping :=
  (alookup rm.routes p).bind (fun sub => alookup sub h)

/-- Write `self.routes[p][h] = m`, assuming `p` is a key of `routes`
(every use site has established this). -/
def setMapping (rm : RouteMap) (p : Port) (h : Host) (m : Mapping) : RouteMap :=
  match alookup rm.routes p with
  | some sub => { rm with routes := aset rm.routes p (aset sub h m) }
  | none => rm

/-- Distance of the `SELF` entry for a host, when present. -/
def selfDistance (rm : RouteMap) (h : Host) : Option Int :=
  (getMapping rm INSTANCE h).map Mapping.kDistance

/-- The loop `for port in self.routes:` inside `update_route_for_host`.
The local `mapping` aliases `self.routes[INSTANCE][host]`, so every
iteration re-reads that entry from the current state; an accepted
improvement writes distance and next hop back into it. -/
def urfh_loop (host : Host) : List Port → RouteMap → Except PyErr RouteMap
  | [], rm => .ok rm
  | port :: rest, rm =>
    match alookup rm.latencies port,
          getMapping rm port host,
          getMapping rm INSTANCE host with
    | some lat, some pm, some mapping =>
      let distance := lat + pm.kDistance
      if distance < mapping.kDistance then
        urfh_loop host rest
          (setMapping rm INSTANCE host
            { mapping with kDistance := distance, kNextHop := port })
      else
        urfh_loop host rest rm
    | _, _, _ => .error .keyError

/-- Source `RouteMap.update_route_for_host`: reset the own distance to `INFINITY`,
then take every strictly improving `latency + distance` over all ports;
returns whether the own distance changed. -/
def update_route_for_host (rm : RouteMap) (host : Host) :
    Except PyErr (RouteMap × Bool) :=
  match getMapping rm INSTANCE host with
  | none => .error .keyError
  | some mapping =>
    let original_distance := mapping.kDistance
    let rm1 := setMapping rm INSTANCE host { mapping with kDistance := INFINITY }
    match urfh_loop host (akeys rm1.routes) rm1 with
    | .error e => .error e
    | .ok rm2 =>
      match getMapping rm2 INSTANCE host with
      | none => .error .keyError
      | some final => .ok (rm2, final.kDistance != original_distance)

/-- The seeding loop of `received_route`: give every port that does not yet
know `host` an `INFINITY` entry whose next hop is the advertising port. -/
def seedHost (host : Host) (next_hop : Port) (now : Nat)
    (routes : List (Port × List (Host × Mapping))) :
    List (Port × List (Host × Mapping)) :=
  routes.map (fun qs =>
    match alookup qs.2 host with
    | some _ => qs
    | none => (qs.1, qs.2 ++ [(host, m_mapping now INFINITY next_hop)]))

/-- The tail of `received_route` once the advertised distance has been
written into `self.routes[port][host]` (state `s`): relax the host, notify
the delegate if the own distance changed, then refresh the advertised
entry's time stamp.  Factored out so proofs can reason about it once. -/
def rr_after_write (s : RouteMap) (port : Port) (host : Host) (now : Nat) :
    Except PyErr (RouteMap × List Host) :=
  match update_route_for_host s host with
  | .error e => .error e
  | .ok (rm3, changed) =>
    let notifications := if changed then [host] else []
    match getMapping rm3 port host with
    | none => .error .keyError
    | some m2 =>
      .ok (setMapping rm3 port host { m2 with kTime := now }, notifications)

/-- Source `RouteMap.received_route(port, host, latency)`: seed an unseen host,
record the advertised distance, relax, notify the delegate on change, then
refresh the entry's time stamp. -/
def received_route (rm : RouteMap) (port : Port) (host : Host) (latency : Int)
    (now : Nat) : Except PyErr (RouteMap × List Host) :=
  match alookup rm.routes port with
  | none => .error .keyError
  | some sub =>
    let rm1 : RouteMap :=
      match alookup sub host with
      | some _ => rm
      | none => { rm with routes := seedHost host port now rm.routes }
    match getMapping rm1 port host with
    | none => .error .keyError
    | some mapping =>
      rr_after_write (setMapping rm1 port host { mapping with kDistance := latency })
        port host now

/-- Source `RouteMap.host_discover(host, port)`.  For a host already present in the
own table the source evaluates `latency < m_distance(mapping)` where the
local variable is actually named `old_mapping`, so python raises a
`NameError`; mutations made before the raise are discarded by this model
(no claim inspects the post-error state).  Note the seeding loop shadows
`port`, so seeded entries point at their own port. -/
def host_discover (rm : RouteMap) (host : Host) (port : Port) (now : Nat) :
    Except PyErr (RouteMap × List Host) :=
  match alookup rm.routes port with
  | none => .error .keyError
  | some sub =>
    let rm1 : RouteMap :=
      { rm with routes := aset rm.routes port (aset sub host (m_mapping now 0 port)) }
    match alookup rm1.latencies port with
    | none => .error .keyError
    | some latency =>
      match alookup rm1.routes INSTANCE with
      | none => .error .keyError
      | some iSub =>
        match alookup iSub host with
        | some _ => .error .nameError
        | none =>
          let routes2 := aset rm1.routes INSTANCE
            (aset iSub host (m_mapping now latency port))
          let rm2 : RouteMap := { rm1 with routes := routes2 }
          let routes3 := rm2.routes.map (fun qs =>
            match alookup qs.2 host with
            | some _ => qs
            | none => (qs.1, qs.2 ++ [(host, m_mapping now INFINITY qs.1)]))
          let rm3 : RouteMap := { rm2 with routes := routes3 }
          .ok (rm3, [host])

/-- Source `RouteMap.add_link(port, latency)`: record the latency, reset the port's
table, then give it an `INFINITY` entry for every host the own table knows,
notifying the delegate for each such host. -/
def add_link (rm : RouteMap) (port : Port) (latency : Int) (now : Nat) :
    Except PyErr (RouteMap × List Host) :=
  let rm1 : RouteMap := { rm with latencies := aset rm.latencies port latency }
  let rm2 : RouteMap := { rm1 with routes := aset rm1.routes port [] }
  match alookup rm2.routes INSTANCE with
  | none => .error .keyError
  | some iSub =>
    let hosts := akeys iSub
    let newSub := hosts.map (fun h => (h, m_mapping now INFINITY port))
    .ok ({ rm2 with routes := aset rm2.routes port newSub }, hosts)

/-- Source `RouteMap.latency(port)`. -/
def latency (rm : RouteMap) (port : Port) : Except PyErr Int :=
  match alookup rm.latencies port with
  | none => .error .keyError
  | some l => .ok l

/-- Source `RouteMap.connected_hosts()`: collects the `next_hop` fields of own
entries at distance exactly 1 (ports, not hosts). -/
def connected_hosts (rm : RouteMap) : Except PyErr (List Port) :=
  match alookup rm.routes INSTANCE with
  | none => .error .keyError
  | some host_to_port =>
    .ok (((host_to_port.filter (fun hm => hm.2.kDistance == 1)).map
      (fun hm => hm.2.kNextHop)))

/-- Source `RouteMap.next_hop(host)`: the own `Mapping` for `host`, or `none` for
the `DESTINATION_NOT_FOUND` sentinel. -/
def next_hop (rm : RouteMap) (host : Host) : Except PyErr (Option Mapping) :=
  match alookup rm.routes INSTANCE with
  | none => .error .keyError
  | some host_to_port => .ok (alookup host_to_port host)

/-- Source `RouteMap.mapping_for_host(host)`. -/
def mapping_for_host (rm : RouteMap) (host : Host) : Except PyErr Mapping :=
  match getMapping rm INSTANCE host with
  | none => .error .keyError
  | some m => .ok m

/-- The packets the router handles or emits: `RoutePacket`,
`HostDiscoveryPacket`, and ordinary data packets carrying a destination. -/
inductive Packet where
  | route (destination : Host) (latency : Int)
  | hostDiscovery (src : Host)
  | data (dst : Host)
deriving DecidableEq, Repr

/-- The `DVRouter` state: its `RouteMap`, the `POISON_MODE` flag, and the
router's physical ports (used by the simulator's flood). -/
structure DVRouter where
  route_map : RouteMap
  POISON_MODE : Bool
  ports : List Port
deriving DecidableEq, Repr

/-- The simulator's `self.send(packet, port, flood)`: with `flood = true`
the packet goes out every physical port except `port`, otherwise out
`port` alone.  Returns the emitted (packet, egress port) pairs. -/
def DVRouter.send (dv : DVRouter) (packet : Packet) (port : Port)
    (flood : Bool) : List (Packet × Port) :=
  if flood then (dv.ports.filter (fun q => q != port)).map (fun q => (packet, q))
  else [(packet, port)]

/-- Source `DVRouter.route_update(host)`: flood the real advertisement when the
distance is below `INFINITY`; in poison mode additionally poison the next
hop, or flood the withdrawal when the distance is exactly `INFINITY`. -/
def route_update (dv : DVRouter) (host : Host) :
    Except PyErr (List (Packet × Port)) :=
  match mapping_for_host dv.route_map host with
  | .error e => .error e
  | .ok mapping =>
    let route_packet := Packet.route host mapping.kDistance
    let s1 := if mapping.kDistance < INFINITY then
        dv.send route_packet mapping.kNextHop true
      else []
    let s2 := if dv.POISON_MODE then
        if mapping.kDistance ≠ INFINITY then
          dv.send (Packet.route host INFINITY) mapping.kNextHop false
        else
          dv.send route_packet INSTANCE true
      else []
    .ok (s1 ++ s2)

/-- Run `route_update` for each notified host, collecting the sends; an
error stops the run (the python exception propagates). -/
def route_updates (dv : DVRouter) : List Host → List (Packet × Port) × Option PyErr
  | [] => ([], none)
  | h :: rest =>
    match route_update dv h with
    | .error e => ([], some e)
    | .ok s =>
      let r := route_updates dv rest
      (s ++ r.1, r.2)

/-- Outcome of one `handle_rx` call: the router state, the packets emitted
before any exception, and the exception if one was raised. -/
structure HandleResult where
  router : DVRouter
  sends : List (Packet × Port)
  error : Option PyErr
deriving DecidableEq, Repr

/-- Source `DVRouter.handle_rx(packet, port)`.  Route and host-discovery packets
update the route map and advertise each notified host.  For a data packet
the source looks up `next_hop`; on `DESTINATION_NOT_FOUND` it floods the
packet but then falls through (there is no `return`) into
`m_next_hop(mapping)`, which indexes the sentinel string and raises a
`TypeError`.  Otherwise it forwards out the next hop unless that equals the
ingress port, in which case poison mode answers with a poisoned route. -/
def handle_rx (dv : DVRouter) (packet : Packet) (port : Port) (now : Nat) :
    HandleResult :=
  match packet with
  | .route destination latency =>
    (match received_route dv.route_map port destination latency now with
     | .error e => ⟨dv, [], some e⟩
     | .ok (rm1, notifs) =>
       let dv1 : DVRouter := { dv with route_map := rm1 }
       let r := route_updates dv1 notifs
       ⟨dv1, r.1, r.2⟩)
  | .hostDiscovery src =>
    (match host_discover dv.route_map src port now with
     | .error e => ⟨dv, [], some e⟩
     | .ok (rm1, notifs) =>
       let dv1 : DVRouter := { dv with route_map := rm1 }
       let r := route_updates dv1 notifs
       ⟨dv1, r.1, r.2⟩)
  | .data dst =>
    (match next_hop dv.route_map dst with
     | .error e => ⟨dv, [], some e⟩
     | .ok none => ⟨dv, dv.send (Packet.data dst) port true, some .typeError⟩
     | .ok (some mapping) =>
       if mapping.kNextHop != port then
         ⟨dv, dv.send (Packet.data dst) mapping.kNextHop false, none⟩
       else if dv.POISON_MODE then
         ⟨dv, dv.send (Packet.route dst INFINITY) port false, none⟩
       else ⟨dv, [], none⟩)

/-- Pure mirror of the relaxation loop of `update_route_for_host`: the
accumulator is the own entry's current distance; for the `INSTANCE` key the
loop reads the very entry it is updating, so the stored distance there is
the accumulator itself; a strictly smaller `latency + distance` replaces
the accumulator. -/
def relaxFold (lat dist : Port → Int) : List Port → Int → Int
  | [], acc => acc
  | p :: rest, acc =>
    let d := lat p + (if p = INSTANCE then acc else dist p)
    relaxFold lat dist rest (if d < acc then d else acc)

/-- Running minimum of `latency + distance` over the real (non-`INSTANCE`)
ports; started at `INFINITY` this is the spec's clamped minimum. -/
def minFold (lat dist : Port → Int) : List Port → Int → Int
  | [], acc => acc
  | p :: rest, acc =>
    minFold lat dist rest (if p = INSTANCE then acc else min acc (lat p + dist p))

/-- The latency the table records for a port (0 as a dummy when absent). -/
def latOf (rm : RouteMap) (p : Port) : Int := (alookup rm.latencies p).getD 0

/-- The distance port `p`'s table records for `h` (0 as a dummy when absent). -/
def distOf (rm : RouteMap) (h : Host) (p : Port) : Int :=
  ((getMapping rm p h).map Mapping.kDistance).getD 0

/-- The spec's right-hand side for the fixed point: the minimum over all
known real ports of `latency(p) + RoutingTable[p][h].distance`, clamped at
`INFINITY`. -/
def clampedMinRM (rm : RouteMap) (h : Host) : Int :=
  minFold (latOf rm) (distOf rm h) (akeys rm.routes) INFINITY

/-- The hosts the own table knows. -/
def knownHosts (rm : RouteMap) : List Host :=
  match alookup rm.routes INSTANCE with
  | some sub => akeys sub
  | none => []

/-- Relaxing `h` once more would report no change. -/
def relaxSettledB (rm : RouteMap) (h : Host) : Bool :=
  match update_route_for_host rm h with
  | .ok (_, b) => !b
  | .error _ => false

/-- The table has settled: no host's relaxation reports a further change. -/
def quiescentB (rm : RouteMap) : Bool :=
  (knownHosts rm).all (fun h => relaxSettledB rm h)

/-- C1's next-hop clause at `h`: the stored next hop attains the clamped
minimum, i.e. `latency(next_hop) + RoutingTable[next_hop][h].distance`
equals `RoutingTable[SELF][h].distance`'s defining minimum. -/
def nextHopAttainsB (rm : RouteMap) (h : Host) : Bool :=
  match getMapping rm INSTANCE h with
  | some m => latOf rm m.kNextHop + distOf rm h m.kNextHop == clampedMinRM rm h
  | none => false

/-- The hosts whose own-table distance is exactly 1 (what the spec says
`directHosts` must return). -/
def hostsAtDistanceOne (rm : RouteMap) : List Host :=
  match alookup rm.routes INSTANCE with
  | none => []
  | some host_to_port =>
    akeys (host_to_port.filter (fun hm => hm.2.kDistance == 1))

/-- C1 counterexample run: two links, two identical advertisements for
host 0, then a re-registration of port 1 at a much larger latency. -/
def c1Seq : Except PyErr RouteMap := do
  let r1 ← add_link RouteMap.init 1 1 0
  let r2 ← add_link r1.1 2 1 0
  let r3 ← received_route r2.1 1 0 0 0
  let r4 ← received_route r3.1 2 0 0 0
  let r5 ← add_link r4.1 1 50 0
  .ok r5.1

/-- The state the C1 counterexample run reaches. -/
def c1rm : RouteMap := c1Seq.toOption.getD RouteMap.init

/-- C5 counterexample run: discover host 0 on port 1 twice. -/
def c5Seq : Except PyErr (RouteMap × List Host) := do
  let r1 ← add_link RouteMap.init 1 1 0
  let r2 ← host_discover r1.1 0 1 0
  host_discover r2.1 0 1 1

/-- C6 counterexample run: host 7 ends one hop away via port 2. -/
def c6Seq : Except PyErr RouteMap := do
  let r1 ← add_link RouteMap.init 2 1 0
  let r2 ← received_route r1.1 2 7 0 0
  .ok r2.1

/-- The state the C6 counterexample run reaches. -/
def c6rm : RouteMap := c6Seq.toOption.getD RouteMap.init

/-- Router used by the C4 counterexample: ports 1 and 2 up, no host known. -/
def c4Seq : Except PyErr RouteMap := do
  let r1 ← add_link RouteMap.init 1 1 0
  let r2 ← add_link r1.1 2 1 0
  .ok r2.1

/-- The C4 router: `POISON_MODE` off, physical ports 1 and 2. -/
def c4dv : DVRouter := ⟨c4Seq.toOption.getD RouteMap.init, false, [1, 2]⟩

/-- Witness router for C3: poison mode on, host 0 at distance 3 via
next hop 1. -/
def w3dv : DVRouter :=
  ⟨⟨[(INSTANCE, 0), (1, 1), (2, 1)],
    [(INSTANCE, [(0, ⟨3, 1, 0⟩)]), (1, [(0, ⟨2, 1, 0⟩)]), (2, [(0, ⟨16, 1, 0⟩)])]⟩,
   true, [1, 2]⟩

/-- Witness router for the withdrawal half of C3 and for C10: host 0 at
distance `INFINITY`. -/
def w3inf : RouteMap :=
  ⟨[(INSTANCE, 0), (1, 1), (2, 1)],
   [(INSTANCE, [(0, ⟨16, 1, 0⟩)]), (1, [(0, ⟨16, 1, 0⟩)]), (2, [(0, ⟨16, 1, 0⟩)])]⟩

/-- Witness router for C10: poison mode off, host 0 unreachable. -/
def w10dv : DVRouter := ⟨w3inf, false, [1, 2]⟩

/-- Witness state for C2: one link whose advertised leg sums past
`INFINITY` (latency 1 plus stored distance 16). -/
def w2rm : RouteMap :=
  ⟨[(INSTANCE, 0), (1, 1)],
   [(INSTANCE, [(0, ⟨16, 1, 0⟩)]), (1, [(0, ⟨16, 1, 0⟩)])]⟩

/-- Witness state for the amended C1: one link, host 0 settled at
distance 4 = 1 + 3 via port 1. -/
def w1rm : RouteMap :=
  ⟨[(INSTANCE, 0), (1, 1)],
   [(INSTANCE, [(0, ⟨4, 1, 0⟩)]), (1, [(0, ⟨3, 1, 0⟩)])]⟩

/-- Witness state for C8: one registered link, host 3 already known
everywhere. -/
def w8rm : RouteMap :=
  ⟨[(INSTANCE, 0), (1, 1)],
   [(INSTANCE, [(3, ⟨16, 1, 0⟩)]), (1, [(3, ⟨16, 1, 0⟩)])]⟩

/-- Witness state for C7 and C9: a table that already knows host 0. -/
def w9rm : RouteMap :=
  ⟨[(INSTANCE, 0), (1, 1)],
   [(INSTANCE, [(0, ⟨1, 1, 0⟩)]), (1, [(0, ⟨0, 1, 0⟩)])]⟩

/-- The state after the first discovery of the C5 run: host 0 is already
known to the own table. -/
def c5rm : RouteMap :=
  (((do
    let r1 ← add_link RouteMap.init 1 1 0
    host_discover r1.1 0 1 0 : Except PyErr (RouteMap × List Host))).toOption.map
      Prod.fst).getD RouteMap.init

/-- The state `add_link w9rm 2 5` produces (used by the C9 witness). -/
def w9out : RouteMap :=
  ⟨[(INSTANCE, 0), (1, 1), (2, 5)],
   [(INSTANCE, [(0, ⟨1, 1, 0⟩)]), (1, [(0, ⟨0, 1, 0⟩)]),
    (2, [(0, ⟨16, 2, 0⟩)])]⟩

theorem alookup_aset_self {α β : Type} [DecidableEq α] (l : List (α × β))
    (k : α) (v : β) : alookup (aset l k v) k = some v := by
  induction l with
  | nil => simp [aset, alookup]
  | cons kv rest ih =>
    obtain ⟨a, b⟩ := kv
    by_cases h : a = k
    · simp [aset, h, alookup]
    · simp [aset, h, alookup, ih]

theorem alookup_aset_ne {α β : Type} [DecidableEq α] (l : List (α × β))
    (k k' : α) (v : β) (h : k' ≠ k) :
    alookup (aset l k v) k' = alookup l k' := by
  induction l with
  | nil => simp [aset, alookup, Ne.symm h]
  | cons kv rest ih =>
    obtain ⟨a, b⟩ := kv
    by_cases hk : a = k
    · subst hk
      simp [aset, alookup, Ne.symm h]
    · simp only [aset, if_neg hk, alookup]
      by_cases hk' : a = k'
      · simp [hk']
      · simp [hk', ih]

theorem alookup_isSome_iff {α β : Type} [DecidableEq α] (l : List (α × β))
    (k : α) : (alookup l k).isSome = true ↔ k ∈ akeys l := by
  induction l with
  | nil => simp [alookup, akeys]
  | cons kv rest ih =>
    obtain ⟨a, b⟩ := kv
    by_cases h : a = k
    · simp [alookup, akeys, h]
    · simp [alookup, akeys, h, ih, Ne.symm h]

theorem alookup_eq_none_iff {α β : Type} [DecidableEq α] (l : List (α × β))
    (k : α) : alookup l k = none ↔ k ∉ akeys l := by
  rw [← alookup_isSome_iff]
  cases alookup l k <;> simp

theorem akeys_aset_of_mem {α β : Type} [DecidableEq α] (l : List (α × β))
    (k : α) (v : β) (h : k ∈ akeys l) : akeys (aset l k v) = akeys l := by
  induction l with
  | nil => simp [akeys] at h
  | cons kv rest ih =>
    obtain ⟨a, b⟩ := kv
    by_cases hk : a = k
    · simp [aset, hk, akeys]
    · have hmem : k ∈ akeys rest := by
        rcases (by simpa [akeys] using h) with h1 | h1
        · exact absurd h1.symm hk
        · simpa [akeys] using h1
      have ih2 := ih hmem
      simp only [akeys] at ih2 ⊢
      simp [aset, hk, ih2]

theorem aset_eq_of_lookup {α β : Type} [DecidableEq α] (l : List (α × β))
    (k : α) (v : β) (h : alookup l k = some v) : aset l k v = l := by
  induction l with
  | nil => simp [alookup] at h
  | cons kv rest ih =>
    obtain ⟨a, b⟩ := kv
    by_cases hk : a = k
    · subst hk
      simp [alookup] at h
      simp [aset, h]
    · simp only [alookup, if_neg hk] at h
      simp [aset, hk, ih h]

theorem alookup_append {α β : Type} [DecidableEq α] (l1 l2 : List (α × β))
    (k : α) : alookup (l1 ++ l2) k =
      (match alookup l1 k with
       | some v => some v
       | none => alookup l2 k) := by
  induction l1 with
  | nil => simp [alookup]
  | cons kv rest ih =>
    obtain ⟨a, b⟩ := kv
    by_cases h : a = k
    · simp [alookup, h]
    · simp [alookup, h, ih]

theorem akeys_append {α β : Type} (l1 l2 : List (α × β)) :
    akeys (l1 ++ l2) = akeys l1 ++ akeys l2 := by
  simp [akeys]

theorem setMapping_latencies (rm : RouteMap) (p : Port) (h : Host)
    (m : Mapping) : (setMapping rm p h m).latencies = rm.latencies := by
  unfold setMapping
  cases alookup rm.routes p <;> rfl

theorem akeys_setMapping (rm : RouteMap) (p : Port) (h : Host) (m : Mapping) :
    akeys (setMapping rm p h m).routes = akeys rm.routes := by
  unfold setMapping
  cases hl : alookup rm.routes p with
  | none => rfl
  | some sub =>
    have hp : p ∈ akeys rm.routes := by
      rw [← alookup_isSome_iff, hl]; rfl
    simpa using akeys_aset_of_mem rm.routes p (aset sub h m) hp

theorem getMapping_setMapping_self (rm : RouteMap) (p : Port) (h : Host)
    (m : Mapping) (hp : (alookup rm.routes p).isSome = true) :
    getMapping (setMapping rm p h m) p h = some m := by
  unfold setMapping getMapping
  cases hl : alookup rm.routes p with
  | none => simp [hl] at hp
  | some sub => simp [alookup_aset_self]

theorem getMapping_setMapping_other (rm : RouteMap) (p : Port) (h : Host)
    (m : Mapping) (q : Port) (h' : Host) (hne : q ≠ p ∨ h' ≠ h) :
    getMapping (setMapping rm p h m) q h' = getMapping rm q h' := by
  unfold setMapping getMapping
  cases hl : alookup rm.routes p with
  | none => rfl
  | some sub =>
    rcases hne with hq | hh
    · simp [alookup_aset_ne _ _ _ _ hq]
    · by_cases hq : q = p
      · subst hq
        simp [alookup_aset_self, hl, alookup_aset_ne _ _ _ _ hh]
      · simp [alookup_aset_ne _ _ _ _ hq]

theorem getMapping_isSome_routes (rm : RouteMap) (p : Port) (h : Host)
    (m : Mapping) (hm : getMapping rm p h = some m) :
    (alookup rm.routes p).isSome = true := by
  unfold getMapping at hm
  cases hl : alookup rm.routes p with
  | none => rw [hl] at hm; simp at hm
  | some sub => rfl

theorem latOf_eq (rm : RouteMap) (q : Port) (v : Int)
    (h : alookup rm.latencies q = some v) : latOf rm q = v := by
  simp [latOf, h]

theorem distOf_eq (rm : RouteMap) (h : Host) (q : Port) (m : Mapping)
    (hm : getMapping rm q h = some m) : distOf rm h q = m.kDistance := by
  simp [distOf, hm]

theorem alookup_of_isSome {α β : Type} [DecidableEq α] (l : List (α × β))
    (k : α) (h : (alookup l k).isSome = true) :
    ∃ v, alookup l k = some v := by
  cases hv : alookup l k with
  | none => rw [hv] at h; simp at h
  | some v => exact ⟨v, rfl⟩

theorem seedHost_alookup (host : Host) (nh : Port) (now : Nat)
    (routes : List (Port × List (Host × Mapping))) (q : Port) :
    alookup (seedHost host nh now routes) q =
      (alookup routes q).map (fun sub =>
        match alookup sub host with
        | some _ => sub
        | none => sub ++ [(host, m_mapping now INFINITY nh)]) := by
  induction routes with
  | nil => simp [seedHost, alookup]
  | cons kv rest ih =>
    obtain ⟨a, sub⟩ := kv
    cases hs : alookup sub host with
    | none =>
      by_cases hq : a = q
      · subst hq
        simp [seedHost, alookup, hs]
      · simp only [seedHost, List.map_cons]
        simp only [alookup, hs, if_neg hq]
        simpa [seedHost] using ih
    | some m =>
      by_cases hq : a = q
      · subst hq
        simp [seedHost, alookup, hs]
      · simp only [seedHost, List.map_cons]
        simp only [alookup, hs, if_neg hq]
        simpa [seedHost] using ih

theorem akeys_seedHost (host : Host) (nh : Port) (now : Nat)
    (routes : List (Port × List (Host × Mapping))) :
    akeys (seedHost host nh now routes) = akeys routes := by
  induction routes with
  | nil => rfl
  | cons kv rest ih =>
    obtain ⟨a, sub⟩ := kv
    simp only [seedHost, akeys, List.map_cons] at ih ⊢
    cases alookup sub host <;> simpa using ih


theorem relaxFold_cons (lat dist : Port → Int) (p : Port) (rest : List Port)
    (acc : Int) :
    relaxFold lat dist (p :: rest) acc =
      relaxFold lat dist rest
        (if lat p + (if p = INSTANCE then acc else dist p) < acc
         then lat p + (if p = INSTANCE then acc else dist p) else acc) := rfl

theorem minFold_cons (lat dist : Port → Int) (p : Port) (rest : List Port)
    (acc : Int) :
    minFold lat dist (p :: rest) acc =
      minFold lat dist rest
        (if p = INSTANCE then acc else min acc (lat p + dist p)) := rfl

theorem relaxFold_le (lat dist : Port → Int) :
    ∀ (ports : List Port) (acc : Int), relaxFold lat dist ports acc ≤ acc := by
  intro ports
  induction ports with
  | nil => intro acc; exact le_refl acc
  | cons p rest ih =>
    intro acc
    rw [relaxFold_cons]
    have hv : (if lat p + (if p = INSTANCE then acc else dist p) < acc
        then lat p + (if p = INSTANCE then acc else dist p) else acc) ≤ acc := by
      by_cases hc : lat p + (if p = INSTANCE then acc else dist p) < acc
      · rw [if_pos hc]; exact le_of_lt hc
      · rw [if_neg hc]
    exact le_trans (ih _) hv

theorem relaxFold_eq_of_ge (lat dist : Port → Int) (hI : lat INSTANCE = 0) :
    ∀ (ports : List Port) (acc : Int),
    (∀ p ∈ ports, p ≠ INSTANCE → acc ≤ lat p + dist p) →
    relaxFold lat dist ports acc = acc := by
  intro ports
  induction ports with
  | nil => intro acc _; rfl
  | cons p rest ih =>
    intro acc hge
    rw [relaxFold_cons]
    have hstep : (if lat p + (if p = INSTANCE then acc else dist p) < acc
        then lat p + (if p = INSTANCE then acc else dist p) else acc) = acc := by
      by_cases hp : p = INSTANCE
      · subst hp
        simp [hI]
      · rw [if_neg hp, if_neg (not_lt.mpr (hge p (List.mem_cons_self _ _) hp))]
    rw [hstep]
    exact ih acc (fun q hq hq2 => hge q (List.mem_cons_of_mem _ hq) hq2)

theorem relaxFold_eq_minFold (lat dist : Port → Int) (hI : lat INSTANCE = 0) :
    ∀ (ports : List Port) (acc : Int),
    relaxFold lat dist ports acc = minFold lat dist ports acc := by
  intro ports
  induction ports with
  | nil => intro acc; rfl
  | cons p rest ih =>
    intro acc
    rw [relaxFold_cons, minFold_cons]
    by_cases hp : p = INSTANCE
    · subst hp
      have h1 : (if lat INSTANCE + (if (INSTANCE : Port) = INSTANCE then acc
          else dist INSTANCE) < acc then lat INSTANCE +
          (if (INSTANCE : Port) = INSTANCE then acc else dist INSTANCE)
          else acc) = acc := by simp [hI]
      rw [h1, if_pos rfl]
      exact ih acc
    · rw [if_neg hp, if_neg hp]
      have h2 : (if lat p + dist p < acc then lat p + dist p else acc) =
          min acc (lat p + dist p) := by
        rcases lt_or_ge (lat p + dist p) acc with hlt | hge2
        · rw [if_pos hlt, min_eq_right (le_of_lt hlt)]
        · rw [if_neg (not_lt.mpr hge2), min_eq_left hge2]
      rw [h2]
      exact ih _

theorem relaxFold_congr (lat1 lat2 dist1 dist2 : Port → Int) :
    ∀ (ports : List Port) (acc : Int),
    (∀ p ∈ ports, lat1 p = lat2 p) →
    (∀ p ∈ ports, p ≠ INSTANCE → dist1 p = dist2 p) →
    relaxFold lat1 dist1 ports acc = relaxFold lat2 dist2 ports acc := by
  intro ports
  induction ports with
  | nil => intro acc _ _; rfl
  | cons p rest ih =>
    intro acc hlat hdist
    rw [relaxFold_cons, relaxFold_cons]
    have hl : lat1 p = lat2 p := hlat p (List.mem_cons_self _ _)
    have hd : (if p = INSTANCE then acc else dist1 p) =
        (if p = INSTANCE then acc else dist2 p) := by
      by_cases hp : p = INSTANCE
      · rw [if_pos hp, if_pos hp]
      · rw [if_neg hp, if_neg hp, hdist p (List.mem_cons_self _ _) hp]
    rw [hl, hd]
    exact ih _ (fun q hq => hlat q (List.mem_cons_of_mem _ hq))
      (fun q hq hq2 => hdist q (List.mem_cons_of_mem _ hq) hq2)

theorem urfh_loop_spec (host : Host) (latF distF : Port → Int) :
    ∀ (ports : List Port) (rm : RouteMap) (m0 : Mapping),
    getMapping rm INSTANCE host = some m0 →
    (∀ p ∈ ports, alookup rm.latencies p = some (latF p)) →
    (∀ p ∈ ports, p ≠ INSTANCE →
      ∃ m, getMapping rm p host = some m ∧ m.kDistance = distF p) →
    ∃ rm2 m2, urfh_loop host ports rm = .ok rm2 ∧
      getMapping rm2 INSTANCE host = some m2 ∧
      m2.kDistance = relaxFold latF distF ports m0.kDistance ∧
      (∀ q h', (q ≠ INSTANCE ∨ h' ≠ host) →
        getMapping rm2 q h' = getMapping rm q h') ∧
      rm2.latencies = rm.latencies ∧
      akeys rm2.routes = akeys rm.routes := by
  intro ports
  induction ports with
  | nil =>
    intro rm m0 hm0 _ _
    exact ⟨rm, m0, rfl, hm0, rfl, fun q h' _ => rfl, rfl, rfl⟩
  | cons p rest ih =>
    intro rm m0 hm0 hlat hdist
    have hlatp : alookup rm.latencies p = some (latF p) :=
      hlat p (List.mem_cons_self _ _)
    obtain ⟨pm, hpm, hpmd⟩ :
        ∃ m, getMapping rm p host = some m ∧
          m.kDistance = (if p = INSTANCE then m0.kDistance else distF p) := by
      by_cases hp : p = INSTANCE
      · subst hp
        exact ⟨m0, hm0, by rw [if_pos rfl]⟩
      · obtain ⟨m, hm, hmd⟩ := hdist p (List.mem_cons_self _ _) hp
        exact ⟨m, hm, by rw [hmd, if_neg hp]⟩
    have hred : urfh_loop host (p :: rest) rm =
        (if latF p + pm.kDistance < m0.kDistance then
          urfh_loop host rest (setMapping rm INSTANCE host
            { m0 with kDistance := latF p + pm.kDistance, kNextHop := p })
        else urfh_loop host rest rm) := by
      simp only [urfh_loop, hlatp, hpm, hm0]
    rw [relaxFold_cons, ← hpmd]
    by_cases hc : latF p + pm.kDistance < m0.kDistance
    · rw [if_pos hc] at hred
      rw [if_pos hc]
      have hroutes : (alookup rm.routes INSTANCE).isSome = true :=
        getMapping_isSome_routes rm INSTANCE host m0 hm0
      have hself : getMapping (setMapping rm INSTANCE host
          { m0 with kDistance := latF p + pm.kDistance, kNextHop := p })
          INSTANCE host = some
          { m0 with kDistance := latF p + pm.kDistance, kNextHop := p } :=
        getMapping_setMapping_self _ _ _ _ hroutes
      have hlat2 : ∀ q ∈ rest, alookup (setMapping rm INSTANCE host
          { m0 with kDistance := latF p + pm.kDistance, kNextHop := p }).latencies
          q = some (latF q) := by
        intro q hq
        rw [setMapping_latencies]
        exact hlat q (List.mem_cons_of_mem _ hq)
      have hdist2 : ∀ q ∈ rest, q ≠ INSTANCE →
          ∃ m, getMapping (setMapping rm INSTANCE host
            { m0 with kDistance := latF p + pm.kDistance, kNextHop := p })
            q host = some m ∧ m.kDistance = distF q := by
        intro q hq hqI
        obtain ⟨m, hm, hmd⟩ := hdist q (List.mem_cons_of_mem _ hq) hqI
        refine ⟨m, ?_, hmd⟩
        rw [getMapping_setMapping_other _ _ _ _ _ _ (Or.inl hqI)]
        exact hm
      obtain ⟨rm2, m2, hrun, hg, hd, hframe, hlats, hkeys⟩ :=
        ih _ _ hself hlat2 hdist2
      refine ⟨rm2, m2, ?_, hg, ?_, ?_, ?_, ?_⟩
      · rw [hred]; exact hrun
      · exact hd
      · intro q h' hq
        rw [hframe q h' hq, getMapping_setMapping_other _ _ _ _ _ _ hq]
      · rw [hlats, setMapping_latencies]
      · rw [hkeys, akeys_setMapping]
    · rw [if_neg hc] at hred
      rw [if_neg hc]
      obtain ⟨rm2, m2, hrun, hg, hd, hframe, hlats, hkeys⟩ := ih rm m0 hm0
        (fun q hq => hlat q (List.mem_cons_of_mem _ hq))
        (fun q hq hqI => hdist q (List.mem_cons_of_mem _ hq) hqI)
      exact ⟨rm2, m2, by rw [hred]; exact hrun, hg, hd, hframe, hlats, hkeys⟩


theorem update_spec (rm : RouteMap) (host : Host) (m0 : Mapping)
    (latF distF : Port → Int)
    (hm0 : getMapping rm INSTANCE host = some m0)
    (hlat : ∀ p ∈ akeys rm.routes, alookup rm.latencies p = some (latF p))
    (hdist : ∀ p ∈ akeys rm.routes, p ≠ INSTANCE →
      ∃ m, getMapping rm p host = some m ∧ m.kDistance = distF p) :
    ∃ rm2 m2, update_route_for_host rm host =
        .ok (rm2, relaxFold latF distF (akeys rm.routes) INFINITY != m0.kDistance) ∧
      getMapping rm2 INSTANCE host = some m2 ∧
      m2.kDistance = relaxFold latF distF (akeys rm.routes) INFINITY ∧
      (∀ q h', (q ≠ INSTANCE ∨ h' ≠ host) →
        getMapping rm2 q h' = getMapping rm q h') ∧
      rm2.latencies = rm.latencies ∧
      akeys rm2.routes = akeys rm.routes := by
  have hroutes : (alookup rm.routes INSTANCE).isSome = true :=
    getMapping_isSome_routes rm INSTANCE host m0 hm0
  have hm0b : getMapping (setMapping rm INSTANCE host
      { m0 with kDistance := INFINITY }) INSTANCE host =
      some { m0 with kDistance := INFINITY } :=
    getMapping_setMapping_self _ _ _ _ hroutes
  have hkeys1 : akeys (setMapping rm INSTANCE host
      { m0 with kDistance := INFINITY }).routes = akeys rm.routes :=
    akeys_setMapping _ _ _ _
  have hlat1 : ∀ p ∈ akeys (setMapping rm INSTANCE host
      { m0 with kDistance := INFINITY }).routes,
      alookup (setMapping rm INSTANCE host
        { m0 with kDistance := INFINITY }).latencies p = some (latF p) := by
    intro p hp
    rw [setMapping_latencies]
    exact hlat p (by rwa [hkeys1] at hp)
  have hdist1 : ∀ p ∈ akeys (setMapping rm INSTANCE host
      { m0 with kDistance := INFINITY }).routes, p ≠ INSTANCE →
      ∃ m, getMapping (setMapping rm INSTANCE host
        { m0 with kDistance := INFINITY }) p host = some m ∧
        m.kDistance = distF p := by
    intro p hp hpI
    obtain ⟨m, hm, hmd⟩ := hdist p (by rwa [hkeys1] at hp) hpI
    refine ⟨m, ?_, hmd⟩
    rw [getMapping_setMapping_other _ _ _ _ _ _ (Or.inl hpI)]
    exact hm
  obtain ⟨rm2, m2, hrun, hg, hd, hframe, hlats, hkeys2⟩ :=
    urfh_loop_spec host latF distF
      (akeys (setMapping rm INSTANCE host { m0 with kDistance := INFINITY }).routes)
      (setMapping rm INSTANCE host { m0 with kDistance := INFINITY })
      { m0 with kDistance := INFINITY } hm0b hlat1 hdist1
  have heq : update_route_for_host rm host = .ok (rm2, m2.kDistance != m0.kDistance) := by
    simp only [update_route_for_host, hm0, hrun, hg]
  rw [hkeys1] at hd hkeys2
  have hdb : m2.kDistance = relaxFold latF distF (akeys rm.routes) INFINITY := hd
  refine ⟨rm2, m2, ?_, hg, hdb, ?_, ?_, ?_⟩
  · rw [heq, hdb]
  · intro q h' hq
    rw [hframe q h' hq, getMapping_setMapping_other _ _ _ _ _ _ hq]
  · rw [hlats, setMapping_latencies]
  · rw [hkeys2]


/-- C1 (amended): in a state where relaxing `host` reports no change
(`update_route_for_host` returns `false`), the own distance for `host`
equals the minimum over all known real ports of
`latency(p) + RoutingTable[p][host].distance`, clamped at `INFINITY`.
The original claim's next-hop clause does not hold (see the
counterexample) and is dropped. -/
theorem C1_fixed_point_distance (rm : RouteMap) (host : Host) (rm2 : RouteMap)
    (hI : alookup rm.latencies INSTANCE = some 0)
    (hlat : ∀ p ∈ akeys rm.routes, (alookup rm.latencies p).isSome = true)
    (hdist : ∀ p ∈ akeys rm.routes, p ≠ INSTANCE →
      (getMapping rm p host).isSome = true)
    (hsettled : update_route_for_host rm host = .ok (rm2, false)) :
    selfDistance rm host = some (clampedMinRM rm host) := by
  cases hm0 : getMapping rm INSTANCE host with
  | none =>
    simp only [update_route_for_host, hm0] at hsettled
    exact Except.noConfusion hsettled
  | some m0 =>
    have hlatb : ∀ p ∈ akeys rm.routes, alookup rm.latencies p = some (latOf rm p) := by
      intro p hp
      obtain ⟨v, hv⟩ := alookup_of_isSome _ _ (hlat p hp)
      rw [hv, latOf_eq rm p v hv]
    have hdistb : ∀ p ∈ akeys rm.routes, p ≠ INSTANCE →
        ∃ m, getMapping rm p host = some m ∧ m.kDistance = distOf rm host p := by
      intro p hp hpI
      cases hm : getMapping rm p host with
      | none =>
        have hc := hdist p hp hpI
        rw [hm] at hc
        simp at hc
      | some m => exact ⟨m, rfl, (distOf_eq rm host p m hm).symm⟩
    obtain ⟨rm2b, m2, heq, _, _, _, _, _⟩ :=
      update_spec rm host m0 (latOf rm) (distOf rm host) hm0 hlatb hdistb
    rw [heq] at hsettled
    simp only [Except.ok.injEq, Prod.mk.injEq] at hsettled
    have hb : relaxFold (latOf rm) (distOf rm host) (akeys rm.routes) INFINITY =
        m0.kDistance := by
      have := hsettled.2
      simpa [bne_eq_false_iff_eq] using this
    have hI0 : latOf rm INSTANCE = 0 := latOf_eq rm INSTANCE 0 hI
    rw [selfDistance, hm0]
    rw [clampedMinRM, ← relaxFold_eq_minFold _ _ hI0, hb]
    rfl

/-- C1 is false as stated: after registering ports 1 and 2, learning host 0
at distance 0 from both, and re-registering port 1 at latency 50, the table
is settled (no relaxation reports a change), the distance clause holds, but
the stored next hop (port 1, leg 50 + 16) does not attain the clamped
minimum (1, via port 2). -/
theorem C1_counterexample :
    c1Seq = Except.ok c1rm ∧
    quiescentB c1rm = true ∧
    knownHosts c1rm = [0] ∧
    selfDistance c1rm 0 = some (clampedMinRM c1rm 0) ∧
    nextHopAttainsB c1rm 0 = false :=
  ⟨rfl, rfl, rfl, rfl, rfl⟩

/-- Witness for the amended C1 at a concrete settled state. -/
theorem C1_witness :
    update_route_for_host w1rm 0 = Except.ok (w1rm, false) ∧
    selfDistance w1rm 0 = some (clampedMinRM w1rm 0) :=
  ⟨rfl, C1_fixed_point_distance w1rm 0 w1rm rfl (by decide) (by decide) rfl⟩

/-- C2: after `update_route_for_host` runs, the recomputed own distance
never exceeds `INFINITY`; and when every real leg `latency(p) +
RoutingTable[p][host].distance` is at least `INFINITY`, it is exactly
`INFINITY`. -/
theorem C2_clamping (rm : RouteMap) (host : Host) (rm2 : RouteMap) (b : Bool)
    (hI : alookup rm.latencies INSTANCE = some 0)
    (hlat : ∀ p ∈ akeys rm.routes, (alookup rm.latencies p).isSome = true)
    (hdist : ∀ p ∈ akeys rm.routes, p ≠ INSTANCE →
      (getMapping rm p host).isSome = true)
    (hup : update_route_for_host rm host = .ok (rm2, b)) :
    (∀ d, selfDistance rm2 host = some d → d ≤ INFINITY) ∧
    ((∀ p ∈ akeys rm.routes, p ≠ INSTANCE →
        INFINITY ≤ latOf rm p + distOf rm host p) →
      selfDistance rm2 host = some INFINITY) := by
  cases hm0 : getMapping rm INSTANCE host with
  | none =>
    simp only [update_route_for_host, hm0] at hup
    exact Except.noConfusion hup
  | some m0 =>
    have hlatb : ∀ p ∈ akeys rm.routes, alookup rm.latencies p = some (latOf rm p) := by
      intro p hp
      obtain ⟨v, hv⟩ := alookup_of_isSome _ _ (hlat p hp)
      rw [hv, latOf_eq rm p v hv]
    have hdistb : ∀ p ∈ akeys rm.routes, p ≠ INSTANCE →
        ∃ m, getMapping rm p host = some m ∧ m.kDistance = distOf rm host p := by
      intro p hp hpI
      cases hm : getMapping rm p host with
      | none =>
        have hc := hdist p hp hpI
        rw [hm] at hc
        simp at hc
      | some m => exact ⟨m, rfl, (distOf_eq rm host p m hm).symm⟩
    obtain ⟨rm2b, m2, heq, hg, hd, _, _, _⟩ :=
      update_spec rm host m0 (latOf rm) (distOf rm host) hm0 hlatb hdistb
    rw [heq] at hup
    simp only [Except.ok.injEq, Prod.mk.injEq] at hup
    have hrm : rm2b = rm2 := hup.1
    subst hrm
    have hI0 : latOf rm INSTANCE = 0 := latOf_eq rm INSTANCE 0 hI
    constructor
    · intro d hdd
      rw [selfDistance, hg] at hdd
      simp only [Option.map_some'] at hdd
      have hdd2 : m2.kDistance = d := Option.some.inj hdd
      rw [← hdd2, hd]
      exact relaxFold_le _ _ _ _
    · intro hge
      rw [selfDistance, hg]
      simp only [Option.map_some', Option.some.injEq]
      rw [hd]
      apply relaxFold_eq_of_ge _ _ hI0
      intro p hp hpI
      exact hge p hp hpI

/-- Witness for C2 at a concrete state where every leg sums past
`INFINITY`. -/
theorem C2_witness :
    (∀ p ∈ akeys w2rm.routes, p ≠ INSTANCE →
      INFINITY ≤ latOf w2rm p + distOf w2rm 0 p) ∧
    selfDistance w2rm 0 = some INFINITY := by
  have h := C2_clamping w2rm 0 w2rm false rfl (by decide) (by decide) rfl
  exact ⟨by decide, h.2 (by decide)⟩


theorem alookup_mapf {α β : Type} [DecidableEq α] (hs : List α) (f : α → β)
    (k : α) (m : β) :
    alookup (hs.map (fun h => (h, f h))) k = some m → m = f k := by
  induction hs with
  | nil => intro h; simp [alookup] at h
  | cons a rest ih =>
    intro h
    simp only [List.map_cons, alookup] at h
    by_cases ha : a = k
    · rw [if_pos ha] at h
      subst ha
      exact (Option.some.inj h).symm
    · rw [if_neg ha] at h
      exact ih h

/-- C3: with poison reverse enabled, a host with finite own distance is
advertised for real to every neighbor except the next hop, with the
poisoned `(host, INFINITY)` sent out the next hop — so no finite distance
for the host ever leaves through the next hop; a host at `INFINITY` has the
poison flooded to every neighbor. -/
theorem C3_poison_reverse (dv : DVRouter) (host : Host) (m : Mapping)
    (hp : dv.POISON_MODE = true)
    (hm : mapping_for_host dv.route_map host = .ok m)
    (hip : INSTANCE ∉ dv.ports) :
    (m.kDistance < INFINITY →
      route_update dv host = .ok
        ((dv.ports.filter (fun q => q != m.kNextHop)).map
          (fun q => (Packet.route host m.kDistance, q)) ++
         [(Packet.route host INFINITY, m.kNextHop)]) ∧
      ∀ pr ∈ ((dv.ports.filter (fun q => q != m.kNextHop)).map
          (fun q => (Packet.route host m.kDistance, q)) ++
         [(Packet.route host INFINITY, m.kNextHop)]),
        pr.2 = m.kNextHop → pr.1 = Packet.route host INFINITY) ∧
    (m.kDistance = INFINITY →
      route_update dv host = .ok
        (dv.ports.map (fun q => (Packet.route host INFINITY, q)))) := by
  constructor
  · intro hlt
    have hne : m.kDistance ≠ INFINITY := ne_of_lt hlt
    constructor
    · simp only [route_update, hm, DVRouter.send, hp, if_pos hlt, if_pos hne,
        if_true]
      norm_num
    · intro pr hpr hpr2
      rcases List.mem_append.mp hpr with hL | hR
      · obtain ⟨q, hq, hqe⟩ := List.mem_map.mp hL
        have hqf := List.mem_filter.mp hq
        have hqn : q ≠ m.kNextHop := by simpa [bne_iff_ne] using hqf.2
        rw [← hqe] at hpr2
        exact absurd hpr2 hqn
      · have hR2 : pr = (Packet.route host INFINITY, m.kNextHop) := by
          simpa using hR
        rw [hR2]
  · intro he
    have hnlt : ¬ (m.kDistance < INFINITY) := by rw [he]; exact lt_irrefl _
    have hfe : dv.ports.filter (fun q => q != INSTANCE) = dv.ports := by
      apply List.filter_eq_self.mpr
      intro q hq
      simp only [bne_iff_ne, ne_eq, decide_eq_true_eq]
      intro hc
      exact hip (hc ▸ hq)
    simp only [route_update, hm, DVRouter.send, hp, if_neg hnlt,
      if_neg (not_not_intro he), he, if_true, List.nil_append, hfe]
    norm_num [INFINITY, hfe]

/-- Witness for C3: a concrete poison-mode router with a finite route
advertises the real distance to port 2 and the poison to next hop 1. -/
theorem C3_witness :
    route_update w3dv 0 = Except.ok
      [(Packet.route 0 3, 2), (Packet.route 0 16, 1)] := by
  have h := (C3_poison_reverse w3dv 0 ⟨3, 1, 0⟩ rfl rfl (by decide)).1 (by decide)
  exact h.1.trans (by rfl)

/-- C10: with poison mode off, a host whose own distance is `INFINITY` is
not advertised at all — `route_update` sends nothing. -/
theorem C10_withdrawal_silent (dv : DVRouter) (host : Host) (m : Mapping)
    (hp : dv.POISON_MODE = false)
    (hm : mapping_for_host dv.route_map host = .ok m)
    (he : m.kDistance = INFINITY) :
    route_update dv host = .ok [] := by
  have hnlt : ¬ (m.kDistance < INFINITY) := by rw [he]; exact lt_irrefl _
  simp only [route_update, hm, DVRouter.send, hp, if_neg hnlt, if_false,
    List.nil_append, Bool.false_eq_true, if_neg (Bool.false_ne_true)]

/-- Witness for C10 at a concrete unreachable host. -/
theorem C10_witness : route_update w10dv 0 = Except.ok [] :=
  C10_withdrawal_silent w10dv 0 ⟨16, 1, 0⟩ rfl rfl rfl

/-- C4 (code bug): a data packet for a never-seen destination is flooded,
but the handler then falls through (missing `return`) and indexes the
`DESTINATION_NOT_FOUND` sentinel, raising a `TypeError` instead of
completing cleanly. -/
theorem C4_unknown_destination_crash :
    c4Seq = Except.ok c4dv.route_map ∧
    next_hop c4dv.route_map 5 = Except.ok none ∧
    handle_rx c4dv (Packet.data 5) 1 0 =
      ⟨c4dv, [(Packet.data 5, 2)], some PyErr.typeError⟩ :=
  ⟨rfl, rfl, rfl⟩

/-- C5 (code bug): discovering a host that the own table already knows
raises a `NameError` (the source reads the undefined local `mapping`,
assigned as `old_mapping`), instead of completing and notifying. -/
theorem C5_rediscover_name_error :
    (getMapping c5rm INSTANCE 0).isSome = true ∧
    host_discover c5rm 0 1 1 = Except.error PyErr.nameError ∧
    c5Seq = Except.error PyErr.nameError :=
  ⟨rfl, rfl, rfl⟩

/-- C6 (code bug): `connected_hosts` on a table where host 7 sits at
distance 1 via port 2 returns the next-hop port list `[2]`, not the host
list `[7]` that the spec's `directHosts` contract requires. -/
theorem C6_returns_ports_not_hosts :
    c6Seq = Except.ok c6rm ∧
    getMapping c6rm INSTANCE 7 = some ⟨1, 2, 0⟩ ∧
    connected_hosts c6rm = Except.ok [2] ∧
    hostsAtDistanceOne c6rm = [7] :=
  ⟨rfl, rfl, rfl, rfl⟩

/-- C7 counterexample: `add_link` with a negative latency succeeds and
registers the link; no `InvalidLatency` failure exists. -/
theorem C7_counterexample :
    add_link RouteMap.init 1 (-3) 0 = Except.ok
      (⟨[(INSTANCE, 0), (1, -3)], [(INSTANCE, []), (1, [])]⟩, []) ∧
    latency (⟨[(INSTANCE, 0), (1, -3)], [(INSTANCE, []), (1, [])]⟩ : RouteMap) 1 =
      Except.ok (-3) :=
  ⟨rfl, rfl⟩

/-- C7 (amended): `add_link` performs no latency validation at all — for
any latency, including negative ones, it succeeds and records that latency
for the port. -/
theorem C7_no_validation (rm : RouteMap) (port : Port) (lat : Int) (now : Nat)
    (hI : (alookup rm.routes INSTANCE).isSome = true) :
    ∃ rm2 notifs, add_link rm port lat now = .ok (rm2, notifs) ∧
      alookup rm2.latencies port = some lat := by
  obtain ⟨isub2, hisub2⟩ : ∃ s,
      alookup (aset rm.routes port ([] : List (Host × Mapping))) INSTANCE = some s := by
    by_cases hp : port = INSTANCE
    · subst hp
      exact ⟨[], alookup_aset_self _ _ _⟩
    · obtain ⟨s0, hs0⟩ := alookup_of_isSome _ _ hI
      refine ⟨s0, ?_⟩
      rw [alookup_aset_ne _ _ _ _ (Ne.symm hp)]
      exact hs0
  refine ⟨⟨aset rm.latencies port lat,
      aset (aset rm.routes port []) port
        ((akeys isub2).map (fun h => (h, m_mapping now INFINITY port)))⟩,
    akeys isub2, ?_, ?_⟩
  · simp [add_link, hisub2]
  · simp [alookup_aset_self]

/-- Witness for the amended C7: a negative latency on a fresh port is
accepted and recorded. -/
theorem C7_witness :
    ∃ rm2 notifs, add_link w9rm 3 (-7) 0 = Except.ok (rm2, notifs) ∧
      alookup rm2.latencies 3 = some (-7) :=
  C7_no_validation w9rm 3 (-7) 0 (by decide)

/-- C9: `add_link` on a real port leaves the own table (and every other
port's table) untouched; the entries it writes in the new port's table are
all `INFINITY` placeholders pointing at that port; it notifies exactly the
known hosts. -/
theorem C9_add_link_frame (rm : RouteMap) (port : Port) (lat : Int)
    (now : Nat) (rm2 : RouteMap) (notifs : List Host)
    (hp : port ≠ INSTANCE)
    (hnn : 0 ≤ lat)
    (hrun : add_link rm port lat now = .ok (rm2, notifs)) :
    alookup rm2.routes INSTANCE = alookup rm.routes INSTANCE ∧
    (∀ q, q ≠ port → alookup rm2.routes q = alookup rm.routes q) ∧
    (∀ h m, getMapping rm2 port h = some m →
      m.kDistance = INFINITY ∧ m.kNextHop = port) ∧
    notifs = knownHosts rm := by
  have hIlook : alookup (aset rm.routes port ([] : List (Host × Mapping)))
      INSTANCE = alookup rm.routes INSTANCE :=
    alookup_aset_ne _ _ _ _ (Ne.symm hp)
  cases hisub : alookup rm.routes INSTANCE with
  | none =>
    rw [add_link, hIlook, hisub] at hrun
    exact Except.noConfusion hrun
  | some isub =>
    rw [add_link, hIlook, hisub] at hrun
    simp only [Except.ok.injEq, Prod.mk.injEq] at hrun
    obtain ⟨hrm2, hnot⟩ := hrun
    refine ⟨?_, ?_, ?_, ?_⟩
    · rw [← hrm2]
      show alookup (aset (aset rm.routes port []) port
        (List.map (fun h => (h, m_mapping now INFINITY port)) (akeys isub)))
        INSTANCE = some isub
      rw [alookup_aset_ne _ _ _ _ (Ne.symm hp),
        alookup_aset_ne _ _ _ _ (Ne.symm hp)]
      exact hisub
    · intro q hq
      rw [← hrm2]
      simp [alookup_aset_ne _ _ _ _ hq]
    · intro h m hgm
      rw [← hrm2] at hgm
      simp [getMapping, alookup_aset_self] at hgm
      have := alookup_mapf (akeys isub) (fun h => m_mapping now INFINITY port)
        h m hgm
      rw [this]
      exact ⟨rfl, rfl⟩
    · rw [← hnot, knownHosts, hisub]

/-- Witness for C9 at a concrete state with one known host. -/
theorem C9_witness :
    alookup w9out.routes INSTANCE = alookup w9rm.routes INSTANCE ∧
    (∀ q, q ≠ 2 → alookup w9out.routes q = alookup w9rm.routes q) ∧
    (∀ h m, getMapping w9out 2 h = some m →
      m.kDistance = INFINITY ∧ m.kNextHop = 2) ∧
    [0] = knownHosts w9rm :=
  C9_add_link_frame w9rm 2 5 0 w9out [0] (by decide) (by decide) rfl


theorem setMapping_eq_self (rm : RouteMap) (p : Port) (h : Host) (m : Mapping)
    (hm : getMapping rm p h = some m) : setMapping rm p h m = rm := by
  unfold getMapping at hm
  unfold setMapping
  cases hl : alookup rm.routes p with
  | none => rfl
  | some sub =>
    rw [hl] at hm
    simp only [Option.some_bind] at hm
    show { latencies := rm.latencies,
           routes := aset rm.routes p (aset sub h m) } = rm
    rw [aset_eq_of_lookup sub h m hm, aset_eq_of_lookup rm.routes p sub hl]

theorem rr_after_write_spec (s : RouteMap) (p : Port) (h : Host) (now : Nat)
    (hp : p ≠ INSTANCE)
    (hpk : p ∈ akeys s.routes)
    (hIk : INSTANCE ∈ akeys s.routes)
    (hlat : ∀ q ∈ akeys s.routes, alookup s.latencies q = some (latOf s q))
    (hall : ∀ q ∈ akeys s.routes, (getMapping s q h).isSome = true) :
    ∃ rm4 mI ch, rr_after_write s p h now =
        .ok (rm4, if ch = true then [h] else []) ∧
      ch = (relaxFold (latOf s) (distOf s h) (akeys s.routes) INFINITY
        != distOf s h INSTANCE) ∧
      rm4.latencies = s.latencies ∧
      akeys rm4.routes = akeys s.routes ∧
      (∀ q ∈ akeys s.routes, (getMapping rm4 q h).isSome = true) ∧
      (∀ q ∈ akeys s.routes, q ≠ INSTANCE → distOf rm4 h q = distOf s h q) ∧
      getMapping rm4 INSTANCE h = some mI ∧
      mI.kDistance = relaxFold (latOf s) (distOf s h) (akeys s.routes) INFINITY := by
  obtain ⟨m0, hm0⟩ := Option.isSome_iff_exists.mp (hall INSTANCE hIk)
  have hdistb : ∀ q ∈ akeys s.routes, q ≠ INSTANCE →
      ∃ m, getMapping s q h = some m ∧ m.kDistance = distOf s h q := by
    intro q hq hqI
    obtain ⟨m, hm⟩ := Option.isSome_iff_exists.mp (hall q hq)
    exact ⟨m, hm, (distOf_eq s h q m hm).symm⟩
  obtain ⟨rm3, m2, heq, hg, hd, hframe, hlats, hkeys⟩ :=
    update_spec s h m0 (latOf s) (distOf s h) hm0 hlat hdistb
  obtain ⟨mp, hmp⟩ := Option.isSome_iff_exists.mp (hall p hpk)
  have hmp3 : getMapping rm3 p h = some mp := by
    rw [hframe p h (Or.inl hp)]
    exact hmp
  have hproutes3 : (alookup rm3.routes p).isSome = true := by
    rw [alookup_isSome_iff, hkeys]
    exact hpk
  refine ⟨setMapping rm3 p h { mp with kTime := now }, m2,
    relaxFold (latOf s) (distOf s h) (akeys s.routes) INFINITY != m0.kDistance,
    ?_, ?_, ?_, ?_, ?_, ?_, ?_, ?_⟩
  · simp only [rr_after_write, heq, hmp3]
  · rw [distOf_eq s h INSTANCE m0 hm0]
  · rw [setMapping_latencies, hlats]
  · rw [akeys_setMapping, hkeys]
  · intro q hq
    by_cases hqp : q = p
    · subst hqp
      rw [getMapping_setMapping_self _ _ _ _ hproutes3]
      rfl
    · rw [getMapping_setMapping_other _ _ _ _ _ _ (Or.inl hqp)]
      by_cases hqI : q = INSTANCE
      · subst hqI
        rw [hg]
        rfl
      · rw [hframe q h (Or.inl hqI)]
        exact hall q hq
  · intro q hq hqI
    by_cases hqp : q = p
    · subst hqp
      rw [distOf, getMapping_setMapping_self _ _ _ _ hproutes3]
      rw [distOf_eq s h q mp hmp]
      rfl
    · rw [distOf, getMapping_setMapping_other _ _ _ _ _ _ (Or.inl hqp),
        hframe q h (Or.inl hqI)]
      rfl
  · rw [getMapping_setMapping_other _ _ _ _ _ _ (Or.inl (Ne.symm hp))]
    exact hg
  · exact hd


theorem latOf_setMapping (rm : RouteMap) (p0 : Port) (h0 : Host) (m0 : Mapping)
    (q : Port) : latOf (setMapping rm p0 h0 m0) q = latOf rm q := by
  rw [latOf, latOf, setMapping_latencies]

theorem C8_tail (rm s1 : RouteMap) (p : Port) (h : Host) (d : Int)
    (now now2 : Nat)
    (hp : p ≠ INSTANCE)
    (hrr1 : received_route rm p h d now = rr_after_write s1 p h now)
    (hskeys : akeys s1.routes = akeys rm.routes)
    (hpk : p ∈ akeys rm.routes)
    (hIk : INSTANCE ∈ akeys rm.routes)
    (hslat : ∀ q ∈ akeys s1.routes, alookup s1.latencies q = some (latOf s1 q))
    (hsall : ∀ q ∈ akeys s1.routes, (getMapping s1 q h).isSome = true)
    (hspd : distOf s1 h p = d) :
    ∃ rm1 n1 rm2, received_route rm p h d now = .ok (rm1, n1) ∧
      received_route rm1 p h d now2 = .ok (rm2, []) := by
  have hpk1 : p ∈ akeys s1.routes := by rw [hskeys]; exact hpk
  have hIk1 : INSTANCE ∈ akeys s1.routes := by rw [hskeys]; exact hIk
  obtain ⟨rm1, mI, ch, heq1, hch1, hlats1, hkeys1, hall1, hdists1, hgI, hdI⟩ :=
    rr_after_write_spec s1 p h now hp hpk1 hIk1 hslat hsall
  have hpk2 : p ∈ akeys rm1.routes := by rw [hkeys1]; exact hpk1
  have hIk2 : INSTANCE ∈ akeys rm1.routes := by rw [hkeys1]; exact hIk1
  obtain ⟨sub1, hsub1⟩ := alookup_of_isSome rm1.routes p
    (by rw [alookup_isSome_iff]; exact hpk2)
  obtain ⟨m1p, hm1p⟩ := Option.isSome_iff_exists.mp (hall1 p hpk1)
  have hm1pl : alookup sub1 h = some m1p := by
    have hx := hm1p
    rw [getMapping, hsub1, Option.some_bind] at hx
    exact hx
  have hm1pd : m1p.kDistance = d := by
    have h1 := hdists1 p hpk1 hp
    rw [distOf_eq rm1 h p m1p hm1p] at h1
    rw [h1, hspd]
  have hmset : ({ m1p with kDistance := d } : Mapping) = m1p := by
    obtain ⟨d0, nh0, t0⟩ := m1p
    simp only [Mapping.mk.injEq, and_true]
    exact hm1pd.symm
  have hrr2 : received_route rm1 p h d now2 = rr_after_write rm1 p h now2 := by
    simp only [received_route, hsub1, hm1pl, hm1p, hmset,
      setMapping_eq_self rm1 p h m1p hm1p]
  have hlat2 : ∀ q ∈ akeys rm1.routes, alookup rm1.latencies q =
      some (latOf rm1 q) := by
    intro q hq
    rw [hkeys1] at hq
    have hlof : latOf rm1 q = latOf s1 q := by rw [latOf, latOf, hlats1]
    rw [hlats1, hlof]
    exact hslat q hq
  have hall2 : ∀ q ∈ akeys rm1.routes, (getMapping rm1 q h).isSome = true := by
    intro q hq
    rw [hkeys1] at hq
    exact hall1 q hq
  obtain ⟨rm2, mI2, ch2, heq2, hch2, _, _, _, _, _, _⟩ :=
    rr_after_write_spec rm1 p h now2 hp hpk2 hIk2 hlat2 hall2
  have hch2f : ch2 = false := by
    rw [hch2]
    have hfold : relaxFold (latOf rm1) (distOf rm1 h) (akeys rm1.routes) INFINITY =
        relaxFold (latOf s1) (distOf s1 h) (akeys s1.routes) INFINITY := by
      rw [hkeys1]
      apply relaxFold_congr
      · intro q hq
        rw [latOf, latOf, hlats1]
      · intro q hq hqI
        exact hdists1 q hq hqI
    have hdi : distOf rm1 h INSTANCE =
        relaxFold (latOf s1) (distOf s1 h) (akeys s1.routes) INFINITY := by
      rw [distOf_eq rm1 h INSTANCE mI hgI]
      exact hdI
    rw [hfold, hdi]
    exact bne_self_eq_false _
  refine ⟨rm1, (if ch = true then [h] else []), rm2, ?_, ?_⟩
  · rw [hrr1]
    exact heq1
  · rw [hrr2, heq2, hch2f]
    simp


/-- C8: receiving the same advertisement `(port, host, distance)` twice in
a row triggers a change notification at most on the first call — the
second identical call reports no notified host. -/
theorem C8_idempotent (rm : RouteMap) (p : Port) (h : Host) (d : Int)
    (now now2 : Nat)
    (hp : p ≠ INSTANCE)
    (hpk : p ∈ akeys rm.routes)
    (hIk : INSTANCE ∈ akeys rm.routes)
    (hlat : ∀ q ∈ akeys rm.routes, (alookup rm.latencies q).isSome = true)
    (hrect : (∀ q ∈ akeys rm.routes, (getMapping rm q h).isSome = true) ∨
             (∀ q ∈ akeys rm.routes, getMapping rm q h = none)) :
    ∃ rm1 n1 rm2, received_route rm p h d now = .ok (rm1, n1) ∧
      received_route rm1 p h d now2 = .ok (rm2, []) := by
  obtain ⟨sub, hsub⟩ := alookup_of_isSome rm.routes p
    (by rw [alookup_isSome_iff]; exact hpk)
  have hsubS : (alookup rm.routes p).isSome = true := by rw [hsub]; rfl
  have hlatb : ∀ q ∈ akeys rm.routes, alookup rm.latencies q =
      some (latOf rm q) := by
    intro q hq
    obtain ⟨v, hv⟩ := alookup_of_isSome _ _ (hlat q hq)
    rw [hv, latOf_eq rm q v hv]
  rcases hrect with hpresent | hfresh
  · obtain ⟨mh, hmh⟩ := Option.isSome_iff_exists.mp (hpresent p hpk)
    have hmhl : alookup sub h = some mh := by
      have hx := hmh
      rw [getMapping, hsub, Option.some_bind] at hx
      exact hx
    have hrr1 : received_route rm p h d now =
        rr_after_write (setMapping rm p h { mh with kDistance := d })
          p h now := by
      simp only [received_route, hsub, hmhl, hmh]
    refine C8_tail rm (setMapping rm p h { mh with kDistance := d })
      p h d now now2 hp hrr1 (akeys_setMapping _ _ _ _) hpk hIk ?_ ?_ ?_
    · intro q hq
      rw [akeys_setMapping] at hq
      rw [setMapping_latencies, latOf_setMapping]
      exact hlatb q hq
    · intro q hq
      rw [akeys_setMapping] at hq
      by_cases hqp : q = p
      · subst hqp
        rw [getMapping_setMapping_self _ _ _ _ hsubS]
        rfl
      · rw [getMapping_setMapping_other _ _ _ _ _ _ (Or.inl hqp)]
        exact hpresent q hq
    · rw [distOf, getMapping_setMapping_self _ _ _ _ hsubS]
      rfl
  · have hsubh : alookup sub h = none := by
      have hx := hfresh p hpk
      rw [getMapping, hsub, Option.some_bind] at hx
      exact hx
    have hseedlookup : ∀ q ∈ akeys rm.routes,
        getMapping { rm with routes := seedHost h p now rm.routes } q h =
          some (m_mapping now INFINITY p) := by
      intro q hq
      obtain ⟨subq, hsubq⟩ := alookup_of_isSome rm.routes q
        (by rw [alookup_isSome_iff]; exact hq)
      have hsubqh : alookup subq h = none := by
        have hx := hfresh q hq
        rw [getMapping, hsubq, Option.some_bind] at hx
        exact hx
      show (alookup (seedHost h p now rm.routes) q).bind
        (fun sub2 => alookup sub2 h) = some (m_mapping now INFINITY p)
      rw [seedHost_alookup, hsubq]
      simp only [Option.map_some', hsubqh, Option.some_bind]
      rw [alookup_append, hsubqh]
      simp [alookup]
    have hgSp : getMapping { rm with routes := seedHost h p now rm.routes }
        p h = some (m_mapping now INFINITY p) := hseedlookup p hpk
    have hpS : (alookup { rm with
        routes := seedHost h p now rm.routes }.routes p).isSome = true := by
      show (alookup (seedHost h p now rm.routes) p).isSome = true
      rw [seedHost_alookup, hsub]
      rfl
    have hrr1 : received_route rm p h d now =
        rr_after_write (setMapping
          { rm with routes := seedHost h p now rm.routes } p h
          { m_mapping now INFINITY p with kDistance := d }) p h now := by
      simp only [received_route, hsub, hsubh, hgSp]
    refine C8_tail rm (setMapping
      { rm with routes := seedHost h p now rm.routes } p h
      { m_mapping now INFINITY p with kDistance := d })
      p h d now now2 hp hrr1 ?_ hpk hIk ?_ ?_ ?_
    · rw [akeys_setMapping]
      show akeys (seedHost h p now rm.routes) = akeys rm.routes
      exact akeys_seedHost h p now rm.routes
    · intro q hq
      rw [akeys_setMapping] at hq
      rw [setMapping_latencies, latOf_setMapping]
      show alookup rm.latencies q =
        some (latOf { rm with routes := seedHost h p now rm.routes } q)
      have hq2 : q ∈ akeys rm.routes := by
        have hx : q ∈ akeys (seedHost h p now rm.routes) := hq
        rwa [akeys_seedHost] at hx
      exact hlatb q hq2
    · intro q hq
      rw [akeys_setMapping] at hq
      have hq2 : q ∈ akeys rm.routes := by
        have hx : q ∈ akeys (seedHost h p now rm.routes) := hq
        rwa [akeys_seedHost] at hx
      by_cases hqp : q = p
      · subst hqp
        rw [getMapping_setMapping_self _ _ _ _ hpS]
        rfl
      · rw [getMapping_setMapping_other _ _ _ _ _ _ (Or.inl hqp)]
        rw [hseedlookup q hq2]
        rfl
    · rw [distOf, getMapping_setMapping_self _ _ _ _ hpS]
      rfl

/-- Witness for C8 at a concrete table: the first identical advertisement
may notify, the second never does. -/
theorem C8_witness :
    ∃ rm1 n1 rm2, received_route w8rm 1 3 4 0 = Except.ok (rm1, n1) ∧
      received_route rm1 1 3 4 1 = Except.ok (rm2, []) :=
  C8_idempotent w8rm 1 3 4 0 1 (by decide) (by decide) (by decide)
    (by decide) (Or.inl (by decide))

end DV

